import Mathlib

/-!
Verification development for the expense-sharing engine in
src/Xpense_Sharing.py.  The SQLite-backed ledger (tables `expenses` and
`expense_splits`, plus the `users` table it joins against) is embedded as an
explicit state record; REAL columns are modelled as exact rationals; SQL
NULL produced by aggregation over an empty left-join group is modelled with
Option.  The split-construction code of the Streamlit expense form
(module level, lines 250-275) is embedded as pure functions over the entered
field values, with the number_input widget clamping (min_value/max_value
arguments in the source) made explicit.
-/

/-- One row of the `users` table (columns relevant to the engine:
`id`, `name`; source lines 19-20 and dataclass `User`, lines 36-41). -/
structure XUser where
  id : Nat
  name : String
deriving DecidableEq, Repr

/-- One row of the `expenses` table (source lines 22-24 and dataclass
`Expense`, lines 44-50). -/
structure Expense where
  id : Nat
  amount : ℚ
  description : String
  payer_id : Nat
  split_method : String
deriving DecidableEq, Repr

/-- One row of the `expense_splits` table (source lines 26-28 and dataclass
`ExpenseSplit`, lines 53-58). -/
structure ExpenseSplit where
  id : Nat
  expense_id : Nat
  user_id : Nat
  amount : ℚ
deriving DecidableEq, Repr

/-- The database state: the three relations, each in insertion order. -/
structure DB where
  users : List XUser
  expenses : List Expense
  expense_splits : List ExpenseSplit
deriving DecidableEq, Repr

/-- The rowid SQLite assigns to the next `expenses` insert:
one more than the largest existing id (1 on an empty table). -/
def nextExpenseId (db : DB) : Nat :=
  (db.expenses.foldr (fun e m => max e.id m) 0) + 1

/-- The rowid SQLite assigns to the next `expense_splits` insert. -/
def nextSplitId (db : DB) : Nat :=
  (db.expense_splits.foldr (fun s m => max s.id m) 0) + 1

/-- The split rows inserted by the executemany in `create_expense`
(source lines 133-135): one row per allocation entry, in dict iteration
order, with consecutive fresh ids. -/
def mkSplitRows (base : Nat) (expense_id : Nat) (splits : List (Nat × ℚ)) :
    List ExpenseSplit :=
  splits.enum.map (fun p => ⟨base + p.1, expense_id, p.2.1, p.2.2⟩)

/-- `create_expense` (source lines 126-139): inserts one expense row and one
split row per allocation entry, commits, and returns the new Expense.
There is no validation of any kind; the function never fails. -/
def create_expense (db : DB) (amount : ℚ) (description : String)
    (payer_id : Nat) (split_method : String) (splits : List (Nat × ℚ)) :
    Expense × DB :=
  let expense_id := nextExpenseId db
  let e : Expense := ⟨expense_id, amount, description, payer_id, split_method⟩
  (e, { db with
          expenses := db.expenses ++ [e],
          expense_splits :=
            db.expense_splits ++ mkSplitRows (nextSplitId db) expense_id splits })

/-- `get_user_expenses` (source lines 142-147): SELECT DISTINCT e.* FROM
expenses e JOIN expense_splits es ON e.id = es.expense_id WHERE
es.user_id = ?.  An expense row is returned when some split row joins it to
the user; DISTINCT collapses duplicate result rows. -/
def get_user_expenses (db : DB) (user_id : Nat) : List Expense :=
  (db.expenses.filter (fun e =>
    db.expense_splits.any (fun s =>
      s.expense_id = e.id && s.user_id = user_id))).dedup

/-- `get_all_expenses` (source lines 150-153). -/
def get_all_expenses (db : DB) : List Expense :=
  db.expenses

/-- The split rows of one user: WHERE es.user_id = uid over
`expense_splits`. -/
def splitsOf (db : DB) (uid : Nat) : List ExpenseSplit :=
  db.expense_splits.filter (fun s => s.user_id = uid)

/-- The left-join rows the balance-sheet query produces for one user: each
split row of the user, paired with every `expenses` row whose id matches its
`expense_id` (`none` for a dangling reference).  A user with no split rows
gets the empty list, standing for the single all-NULL joined row. -/
def joinRowsOf (db : DB) (uid : Nat) : List (ExpenseSplit × Option Expense) :=
  (splitsOf db uid).flatMap (fun s =>
    match db.expenses.filter (fun e => e.id = s.expense_id) with
    | [] => [(s, none)]
    | es => es.map (fun e => (s, some e)))

/-- The `paid` aggregate of the balance-sheet query (source line 158):
SUM(CASE WHEN e.payer_id = u.id THEN e.amount ELSE 0 END) over the join rows
of the user.  The CASE yields 0 on NULL, so the sum is a plain rational and
is 0 for a user with no splits. -/
def paidOf (db : DB) (uid : Nat) : ℚ :=
  ((joinRowsOf db uid).map (fun r =>
    match r.2 with
    | some e => if e.payer_id = uid then e.amount else 0
    | none => 0)).sum

/-- The `owed` aggregate (source line 159): SUM(es.amount) over the join
rows of the user.  SQL SUM over an all-NULL (empty) group is NULL,
modelled as `none`. -/
def owedOf (db : DB) (uid : Nat) : Option ℚ :=
  match joinRowsOf db uid with
  | [] => none
  | rs => some ((rs.map (fun r => r.1.amount)).sum)

/-- One row of the DataFrame built by `get_balance_sheet`
(source lines 164-167); `balance` is the pandas column Paid - Owed, which is
NaN (modelled `none`) when Owed is NULL. -/
structure BalanceRow where
  name : String
  paid : ℚ
  owed : Option ℚ
  balance : Option ℚ
deriving DecidableEq, Repr

/-- `get_balance_sheet` (source lines 156-168): one row per `users` row
(GROUP BY u.id), in table order, with the two aggregates and the derived
Balance column. -/
def get_balance_sheet (db : DB) : List BalanceRow :=
  db.users.map (fun u =>
    { name := u.name,
      paid := paidOf db u.id,
      owed := owedOf db u.id,
      balance := (owedOf db u.id).map (fun o => paidOf db u.id - o) })

/-- The sum of the Balance column of a sheet; `none` as soon as any row has
a NULL/NaN balance (adding NaN to anything yields NaN). -/
def balanceTotal (rows : List BalanceRow) : Option ℚ :=
  rows.foldr (fun r acc =>
    match r.balance, acc with
    | some b, some t => some (b + t)
    | _, _ => none) (some 0)

/-- The sum of the owed amounts of an allocation (a Python dict of
user id to amount, in insertion order). -/
def sumAlloc (d : List (Nat × ℚ)) : ℚ :=
  (d.map Prod.snd).sum

/-- Python dict assignment `d[k] = v`: update in place when the key is
present (keeping its position), append otherwise. -/
def dictInsert (k : Nat) (v : ℚ) : List (Nat × ℚ) → List (Nat × ℚ)
  | [] => [(k, v)]
  | (k2, v2) :: rest =>
      if k2 = k then (k, v) :: rest else (k2, v2) :: dictInsert k v rest

/-- Failure of the split-construction code.  The source defines no
ValidationError; the only way it can fail is the unhandled ZeroDivisionError
of the Equal branch on an empty user list.  The validationError constructor
exists only so that its absence from the code is stateable. -/
inductive SplitError where
  | validationError (kind detail : String)
  | zeroDivisionError
deriving DecidableEq, Repr

/-- The Equal branch of the expense form (source lines 250-253):
`split_amount = amount / len(users)` (ZeroDivisionError when the list is
empty), then `splits[user.id] = split_amount` for every user.  No rounding,
no remainder absorption, no validation. -/
def equalSplits (users : List Nat) (amount : ℚ) :
    Except SplitError (List (Nat × ℚ)) :=
  if users.length = 0 then
    .error .zeroDivisionError
  else
    .ok (users.foldl (fun d u => dictInsert u (amount / users.length) d) [])

/-- The loop body of the Exact branch (source lines 254-264): every user but
the last gets the entered amount, clamped by the widget to
[0, remaining] (`min_value=0.0, max_value=remaining`); the last user gets
whatever remains, with no check that it was entered at all. -/
def exactLoop : List Nat → ℚ → List ℚ → List (Nat × ℚ) → List (Nat × ℚ)
  | [], _, _, d => d
  | [u], remaining, _, d => dictInsert u remaining d
  | u :: u2 :: rest, remaining, entered, d =>
      let split := max 0 (min (entered.headD 0) remaining)
      exactLoop (u2 :: rest) (remaining - split) entered.tail
        (dictInsert u split d)

/-- The Exact branch of the expense form (source lines 254-264), as a
function of the amounts entered for the non-final users.  It is total:
there is no AllocationMismatch or any other failure path. -/
def exactSplits (users : List Nat) (amount : ℚ) (entered : List ℚ) :
    List (Nat × ℚ) :=
  exactLoop users amount entered []

/-- The loop body of the Percentage branch (source lines 265-275): every
user but the last gets the entered percentage, clamped by the widget to
[0, remaining]; the last user gets the remaining percentage.  Each split is
`amount * (percent / 100)`, unrounded. -/
def percentLoop (amount : ℚ) :
    List Nat → ℚ → List ℚ → List (Nat × ℚ) → List (Nat × ℚ)
  | [], _, _, d => d
  | [u], remaining, _, d => dictInsert u (amount * (remaining / 100)) d
  | u :: u2 :: rest, remaining, entered, d =>
      let percent := max 0 (min (entered.headD 0) remaining)
      percentLoop amount (u2 :: rest) (remaining - percent) entered.tail
        (dictInsert u (amount * (percent / 100)) d)

/-- The Percentage branch of the expense form (source lines 265-275), as a
function of the percentages entered for the non-final users.  It is total:
there is no validation that any percentage sum holds. -/
def percentageSplits (users : List Nat) (amount : ℚ) (entered : List ℚ) :
    List (Nat × ℚ) :=
  percentLoop amount users 100 entered []

/-- Modelled from the spec: the share the spec prescribes for every
non-final participant of an Equal split, namely floor(amount/n) rounded to
currency precision (two decimals).  The source has no such computation;
this definition exists only to compare the code against the spec. -/
def specEqualShare (amount : ℚ) (n : Nat) : ℚ :=
  (⌊amount / n * 100⌋ : ℤ) / 100

/-- The join row of one split under a well-formed ledger: the split paired
with the first expense row matching its expense id. -/
def rowOf (db : DB) (s : ExpenseSplit) : ExpenseSplit × Option Expense :=
  (s, (db.expenses.filter (fun e => e.id = s.expense_id)).head?)

/-- The contribution of one split row to the `paid` aggregate of user
`uid`: the amount of the joined expense when that expense was paid by
`uid`, else 0. -/
def paidContrib (db : DB) (uid : Nat) (s : ExpenseSplit) : ℚ :=
  match (db.expenses.filter (fun e => e.id = s.expense_id)).head? with
  | some e => if e.payer_id = uid then e.amount else 0
  | none => 0

/-- `paidContrib` taken at the split row's own user. -/
def paidContribSelf (db : DB) (s : ExpenseSplit) : ℚ :=
  paidContrib db s.user_id s

/-- The value inside the `owed` aggregate of a user who has at least one
split row: the sum of the amounts of their split rows. -/
def owedVal (db : DB) (uid : Nat) : ℚ :=
  ((splitsOf db uid).map ExpenseSplit.amount).sum

/-- The ledger with every expense row of a given id removed (no engine
operation does this; it is used to state that an amount is absent from an
aggregate). -/
def eraseExpense (db : DB) (eid : Nat) : DB :=
  { db with expenses := db.expenses.filter (fun e => e.id ≠ eid) }

/-- Whether a split-computation outcome is the ValidationError the spec
prescribes. -/
def isValidationError : Except SplitError (List (Nat × ℚ)) → Bool
  | .error (.validationError _ _) => true
  | _ => false

/-- Three registered users and an empty ledger. -/
def dbABC : DB := ⟨[⟨1, "A"⟩, ⟨2, "B"⟩, ⟨3, "C"⟩], [], []⟩

/-- Two registered users and an empty ledger. -/
def dbAB : DB := ⟨[⟨1, "A"⟩, ⟨2, "B"⟩], [], []⟩

/-- The two-expense scenario of the spec: expense 90 paid by A split
30/30/30, then expense 60 paid by B split 20/20/20. -/
def exampleLedger : DB :=
  (create_expense
    (create_expense dbABC 90 "Dinner" 1 "Equal" [(1, 30), (2, 30), (3, 30)]).2
    60 "Taxi" 2 "Equal" [(1, 20), (2, 20), (3, 20)]).2

/-- A reachable ledger in which each payer is absent from the split set of
the expense they paid. -/
def skewLedger : DB :=
  (create_expense (create_expense dbAB 100 "Hotel" 1 "Exact" [(2, 100)]).2
    10 "Snacks" 2 "Exact" [(1, 10)]).2

/-- A reachable ledger in which user B is beneficiary of no split. -/
def soloLedger : DB :=
  (create_expense dbAB 90 "Solo" 1 "Equal" [(1, 90)]).2

/-- A reachable ledger whose single expense carries an allocation summing
to 50 against an amount of 100. -/
def badLedger : DB :=
  (create_expense dbAB 100 "Broken" 1 "Exact" [(1, 50)]).2

/-! ### Helper lemmas on dict-style allocations -/

lemma sumAlloc_append (d d2 : List (Nat × ℚ)) :
    sumAlloc (d ++ d2) = sumAlloc d + sumAlloc d2 := by
  simp [sumAlloc]

lemma dictInsert_of_not_mem (k : Nat) (v : ℚ) :
    ∀ d : List (Nat × ℚ), k ∉ d.map Prod.fst →
      dictInsert k v d = d ++ [(k, v)] := by
  intro d
  induction d with
  | nil => intro _; rfl
  | cons p rest ih =>
      intro h
      simp only [List.map_cons, List.mem_cons] at h
      push_neg at h
      obtain ⟨p1, p2⟩ := p
      simp only [dictInsert, List.cons_append]
      rw [if_neg (fun hk => h.1 hk.symm), ih h.2]

lemma keys_append_single (d : List (Nat × ℚ)) (k : Nat) (v : ℚ) :
    (d ++ [(k, v)]).map Prod.fst = d.map Prod.fst ++ [k] := by
  simp

lemma foldl_dictInsert_const (c : ℚ) :
    ∀ (users : List Nat) (acc : List (Nat × ℚ)),
      users.Nodup → (∀ u ∈ users, u ∉ acc.map Prod.fst) →
      users.foldl (fun d u => dictInsert u c d) acc
        = acc ++ users.map (fun u => (u, c)) := by
  intro users
  induction users with
  | nil => intro acc _ _; simp
  | cons u rest ih =>
      intro acc hnd hdisj
      have hu : u ∉ acc.map Prod.fst := hdisj u (List.mem_cons_self u rest)
      simp only [List.foldl_cons, dictInsert_of_not_mem u c acc hu]
      rw [ih (acc ++ [(u, c)]) (List.nodup_cons.mp hnd).2]
      · simp
      · intro x hx
        rw [keys_append_single]
        simp only [List.mem_append, List.mem_singleton]
        push_neg
        refine ⟨hdisj x (List.mem_cons_of_mem u hx), ?_⟩
        intro hxu
        exact (List.nodup_cons.mp hnd).1 (hxu ▸ hx)

lemma exactLoop_sumAlloc :
    ∀ (users : List Nat) (remaining : ℚ) (entered : List ℚ)
      (acc : List (Nat × ℚ)),
      users ≠ [] → users.Nodup → (∀ u ∈ users, u ∉ acc.map Prod.fst) →
      sumAlloc (exactLoop users remaining entered acc)
        = sumAlloc acc + remaining := by
  intro users
  induction users with
  | nil => intro _ _ _ hne; exact absurd rfl hne
  | cons u rest ih =>
      intro remaining entered acc _ hnd hdisj
      have hu : u ∉ acc.map Prod.fst := hdisj u (List.mem_cons_self u rest)
      cases rest with
      | nil =>
          simp only [exactLoop, dictInsert_of_not_mem u remaining acc hu,
            sumAlloc_append]
          simp [sumAlloc]
      | cons u2 rest2 =>
          simp only [exactLoop]
          rw [ih (remaining - max 0 (min (entered.headD 0) remaining))
            entered.tail
            (dictInsert u (max 0 (min (entered.headD 0) remaining)) acc)
            (List.cons_ne_nil u2 rest2) (List.nodup_cons.mp hnd).2]
          · rw [dictInsert_of_not_mem u _ acc hu, sumAlloc_append]
            simp only [sumAlloc, List.map_cons, List.map_nil, List.sum_cons,
              List.sum_nil]
            ring
          · intro x hx
            rw [dictInsert_of_not_mem u _ acc hu, keys_append_single]
            simp only [List.mem_append, List.mem_singleton]
            push_neg
            refine ⟨hdisj x (List.mem_cons_of_mem u hx), ?_⟩
            intro hxu
            exact (List.nodup_cons.mp hnd).1 (hxu ▸ hx)

lemma percentLoop_sumAlloc (amount : ℚ) :
    ∀ (users : List Nat) (remaining : ℚ) (entered : List ℚ)
      (acc : List (Nat × ℚ)),
      users ≠ [] → users.Nodup → (∀ u ∈ users, u ∉ acc.map Prod.fst) →
      sumAlloc (percentLoop amount users remaining entered acc)
        = sumAlloc acc + amount * (remaining / 100) := by
  intro users
  induction users with
  | nil => intro _ _ _ hne; exact absurd rfl hne
  | cons u rest ih =>
      intro remaining entered acc _ hnd hdisj
      have hu : u ∉ acc.map Prod.fst := hdisj u (List.mem_cons_self u rest)
      cases rest with
      | nil =>
          simp only [percentLoop, dictInsert_of_not_mem u _ acc hu,
            sumAlloc_append]
          simp [sumAlloc]
      | cons u2 rest2 =>
          simp only [percentLoop]
          rw [ih (remaining - max 0 (min (entered.headD 0) remaining))
            entered.tail
            (dictInsert u
              (amount * (max 0 (min (entered.headD 0) remaining) / 100)) acc)
            (List.cons_ne_nil u2 rest2) (List.nodup_cons.mp hnd).2]
          · rw [dictInsert_of_not_mem u _ acc hu, sumAlloc_append]
            simp only [sumAlloc, List.map_cons, List.map_nil, List.sum_cons,
              List.sum_nil]
            ring
          · intro x hx
            rw [dictInsert_of_not_mem u _ acc hu, keys_append_single]
            simp only [List.mem_append, List.mem_singleton]
            push_neg
            refine ⟨hdisj x (List.mem_cons_of_mem u hx), ?_⟩
            intro hxu
            exact (List.nodup_cons.mp hnd).1 (hxu ▸ hx)

/-! ### Helper lemmas on list sums and grouping -/

lemma sum_map_sub' {α : Type} (l : List α) (f g : α → ℚ) :
    (l.map (fun x => f x - g x)).sum = (l.map f).sum - (l.map g).sum := by
  induction l with
  | nil => simp
  | cons a l ih =>
      simp only [List.map_cons, List.sum_cons, ih]
      ring

lemma sum_map_single (k0 : Nat) (c : ℚ) :
    ∀ K : List Nat, K.Nodup → k0 ∈ K →
      (K.map (fun k => if k0 = k then c else 0)).sum = c := by
  intro K
  induction K with
  | nil => intro _ h; cases h
  | cons a rest ih =>
      intro hnd hk
      by_cases hak : k0 = a
      · subst hak
        simp only [List.map_cons, List.sum_cons, if_pos rfl]
        have hz : (rest.map (fun k => if k0 = k then c else 0)).sum = 0 := by
          apply List.sum_eq_zero
          intro x hx
          obtain ⟨y, hy, rfl⟩ := List.mem_map.mp hx
          have hne : k0 ≠ y := fun h => (List.nodup_cons.mp hnd).1 (h ▸ hy)
          simp [hne]
        rw [hz, add_zero]
        simp
      · have hk2 : k0 ∈ rest := by
          rcases List.mem_cons.mp hk with h | h
          · exact absurd h hak
          · exact h
        simp only [List.map_cons, List.sum_cons, if_neg hak,
          ih (List.nodup_cons.mp hnd).2 hk2, zero_add]

lemma sum_partition {α : Type} (key : α → Nat) (f : α → ℚ) :
    ∀ (L : List α) (K : List Nat), K.Nodup → (∀ x ∈ L, key x ∈ K) →
      (K.map (fun k => ((L.filter (fun x => key x = k)).map f).sum)).sum
        = (L.map f).sum := by
  intro L
  induction L with
  | nil => intro K _ _; simp
  | cons x L ih =>
      intro K hnd hcov
      have step : K.map (fun k =>
            (((x :: L).filter (fun y => key y = k)).map f).sum)
          = K.map (fun k => (if key x = k then f x else 0)
              + ((L.filter (fun y => key y = k)).map f).sum) := by
        apply List.map_congr_left
        intro k _
        by_cases hxk : key x = k
        · simp [List.filter_cons, hxk]
        · simp [List.filter_cons, hxk]
      rw [step, List.sum_map_add,
        sum_map_single (key x) (f x) K hnd (hcov x (by simp)),
        ih K hnd (fun y hy => hcov y (by simp [hy]))]
      simp

lemma sum_map_if_count {α : Type} (c : ℚ) (P : α → Prop) [DecidablePred P] :
    ∀ L : List α,
      (L.map (fun x => if P x then c else 0)).sum
        = (L.filter (fun x => decide (P x))).length * c := by
  intro L
  induction L with
  | nil => simp
  | cons a rest ih =>
      by_cases hp : P a
      · simp [List.filter_cons, hp, ih]
        ring
      · simp [List.filter_cons, hp, ih]

/-! ### Helper lemmas on the balance-sheet join -/

lemma flatMap_eq_map {α β : Type} (g : α → List β) (h : α → β) :
    ∀ l : List α, (∀ x ∈ l, g x = [h x]) → l.flatMap g = l.map h := by
  intro l
  induction l with
  | nil => intro _; rfl
  | cons a rest ih =>
      intro hg
      rw [List.flatMap_cons, List.map_cons, hg a (by simp),
        ih (fun x hx => hg x (by simp [hx]))]
      rfl

lemma flatMap_congr {α β : Type} (g g2 : α → List β) :
    ∀ l : List α, (∀ x ∈ l, g x = g2 x) → l.flatMap g = l.flatMap g2 := by
  intro l
  induction l with
  | nil => intro _; rfl
  | cons a rest ih =>
      intro hg
      rw [List.flatMap_cons, List.flatMap_cons, hg a (by simp),
        ih (fun x hx => hg x (by simp [hx]))]

lemma filter_id_single :
    ∀ l : List Expense, (l.map Expense.id).Nodup →
      ∀ e ∈ l, l.filter (fun e2 => e2.id = e.id) = [e] := by
  intro l
  induction l with
  | nil => intro _ e he; cases he
  | cons a rest ih =>
      intro hnd e he
      rw [List.map_cons] at hnd
      have h1 : a.id ∉ rest.map Expense.id := (List.nodup_cons.mp hnd).1
      have h2 : (rest.map Expense.id).Nodup := (List.nodup_cons.mp hnd).2
      rcases List.mem_cons.mp he with rfl | hrest
      · have hrest0 : rest.filter (fun e2 => e2.id = e.id) = [] := by
          rw [List.filter_eq_nil_iff]
          intro x hx
          simp only [decide_eq_true_eq]
          intro hxe
          exact h1 (hxe ▸ List.mem_map_of_mem Expense.id hx)
        simp [List.filter_cons, hrest0]
      · have hne : ¬(a.id = e.id) :=
          fun h => h1 (h ▸ List.mem_map_of_mem Expense.id hrest)
        simp [List.filter_cons, hne, ih h2 e hrest]

lemma joinRowsOf_wf (db : DB) (uid : Nat)
    (h1 : (db.expenses.map Expense.id).Nodup)
    (h2 : ∀ s ∈ db.expense_splits, ∃ e ∈ db.expenses, e.id = s.expense_id) :
    joinRowsOf db uid = (splitsOf db uid).map (rowOf db) := by
  unfold joinRowsOf
  apply flatMap_eq_map
  intro s hs
  obtain ⟨e, he, heid⟩ := h2 s (List.mem_of_mem_filter hs)
  have hf : db.expenses.filter (fun e2 => e2.id = s.expense_id) = [e] := by
    rw [← heid]
    exact filter_id_single db.expenses h1 e he
  unfold rowOf
  rw [hf]
  rfl

lemma paidOf_wf (db : DB) (uid : Nat)
    (h1 : (db.expenses.map Expense.id).Nodup)
    (h2 : ∀ s ∈ db.expense_splits, ∃ e ∈ db.expenses, e.id = s.expense_id) :
    paidOf db uid = ((splitsOf db uid).map (paidContrib db uid)).sum := by
  unfold paidOf
  rw [joinRowsOf_wf db uid h1 h2, List.map_map]
  rfl

lemma owedOf_wf (db : DB) (uid : Nat)
    (h1 : (db.expenses.map Expense.id).Nodup)
    (h2 : ∀ s ∈ db.expense_splits, ∃ e ∈ db.expenses, e.id = s.expense_id)
    (hne : splitsOf db uid ≠ []) :
    owedOf db uid = some (owedVal db uid) := by
  unfold owedOf owedVal
  rw [joinRowsOf_wf db uid h1 h2]
  cases hsp : splitsOf db uid with
  | nil => exact absurd hsp hne
  | cons a l =>
      simp only [List.map_cons]
      rw [List.map_map]
      rfl

lemma balanceTotal_eq_sum (f : BalanceRow → ℚ) :
    ∀ rows : List BalanceRow, (∀ r ∈ rows, r.balance = some (f r)) →
      balanceTotal rows = some ((rows.map f).sum) := by
  intro rows
  induction rows with
  | nil => intro _; rfl
  | cons r rest ih =>
      intro h
      have hr := h r (by simp)
      have hrest := ih (fun x hx => h x (by simp [hx]))
      unfold balanceTotal at hrest ⊢
      rw [List.foldr_cons, hrest, hr, List.map_cons, List.sum_cons]

lemma filter_erase_ne (l : List Expense) (eid k : Nat) (hk : k ≠ eid) :
    (l.filter (fun e => e.id ≠ eid)).filter (fun e => e.id = k)
      = l.filter (fun e => e.id = k) := by
  rw [List.filter_filter]
  apply List.filter_congr
  intro a _
  by_cases hak : a.id = k
  · have hae : ¬(a.id = eid) := fun h => hk (hak.symm.trans h)
    simp [hak, hae, hk]
  · simp [hak]

lemma joinRowsOf_erase (db : DB) (eid p : Nat)
    (hno : ∀ s ∈ db.expense_splits, s.expense_id = eid → s.user_id ≠ p) :
    joinRowsOf (eraseExpense db eid) p = joinRowsOf db p := by
  unfold joinRowsOf
  have hsp : splitsOf (eraseExpense db eid) p = splitsOf db p := rfl
  rw [hsp]
  apply flatMap_congr
  intro s hs
  have hsu : s.user_id = p := by
    have := (List.mem_filter.mp hs).2
    simpa using this
  have hsid : s.expense_id ≠ eid :=
    fun h => hno s (List.mem_of_mem_filter hs) h hsu
  have hfe : (eraseExpense db eid).expenses.filter
      (fun e => e.id = s.expense_id)
      = db.expenses.filter (fun e => e.id = s.expense_id) :=
    filter_erase_ne db.expenses eid s.expense_id hsid
  rw [show (eraseExpense db eid).expenses
      = db.expenses.filter (fun e => e.id ≠ eid) from rfl] at hfe
  rw [show (eraseExpense db eid).expenses
      = db.expenses.filter (fun e => e.id ≠ eid) from rfl]
  rw [hfe]

lemma equalSplits_eq_map (users : List Nat) (amount : ℚ)
    (hne : users ≠ []) (hnd : users.Nodup) :
    equalSplits users amount
      = .ok (users.map (fun u => (u, amount / users.length))) := by
  unfold equalSplits
  rw [if_neg (by simpa using hne),
    foldl_dictInsert_const (amount / users.length) users [] hnd (by simp)]
  simp

lemma sum_map_const_div (users : List Nat) (amount : ℚ) (hne : users ≠ []) :
    sumAlloc (users.map (fun u => (u, amount / users.length))) = amount := by
  unfold sumAlloc
  rw [List.map_map]
  have h1 : (users.map (Prod.snd ∘ fun u => (u, amount / (users.length : ℚ))))
      = users.map (Function.const Nat (amount / users.length)) := rfl
  rw [h1, List.map_const, List.sum_replicate, nsmul_eq_mul]
  have hn : (users.length : ℚ) ≠ 0 := by
    have h2 : users.length ≠ 0 := by simpa using hne
    exact_mod_cast h2
  field_simp

/-! ### Claim theorems -/

/-- C1 (counterexample): `create_expense` performs no conservation check.
Recording an expense of amount 100 with an allocation summing to 50, off
from the amount by far more than the 0.01 tolerance, does not fail, and
afterwards both the expense row and its split row are visible in the
ledger. -/
theorem C1_ledger_accepts_violating_allocation :
    badLedger.expenses = [⟨1, 100, "Broken", 1, "Exact"⟩] ∧
    badLedger.expense_splits = [⟨1, 1, 1, 50⟩] ∧
    ¬(|sumAlloc [(1, 50)] - 100| ≤ 1 / 100) := by
  refine ⟨?_, ?_, ?_⟩
  · norm_num [badLedger, dbAB, create_expense, mkSplitRows, nextExpenseId,
      nextSplitId]
  · norm_num [badLedger, dbAB, create_expense, mkSplitRows, nextExpenseId,
      nextSplitId]
  · norm_num [sumAlloc]

/-- C1 (amended): even when the supplied allocation violates conservation
by more than the 0.01 tolerance, `create_expense` succeeds and appends the
expense row and all of its split rows to the ledger; nothing is rejected
and there is no ConservationViolation error path. -/
theorem C1_create_expense_persists_violations (db : DB) (amount : ℚ)
    (description : String) (payer_id : Nat) (split_method : String)
    (splits : List (Nat × ℚ))
    (_hviol : 1 / 100 < |sumAlloc splits - amount|) :
    (create_expense db amount description payer_id split_method
        splits).2.expenses
      = db.expenses
        ++ [⟨nextExpenseId db, amount, description, payer_id, split_method⟩] ∧
    (create_expense db amount description payer_id split_method
        splits).2.expense_splits
      = db.expense_splits
        ++ mkSplitRows (nextSplitId db) (nextExpenseId db) splits :=
  ⟨rfl, rfl⟩

/-- C1 (witness): the amended theorem applied to the violating call that
records amount 100 against an allocation summing to 50. -/
theorem C1_create_expense_persists_violations_witness :
    (create_expense dbAB 100 "Broken" 1 "Exact" [(1, 50)]).2.expenses
      = dbAB.expenses ++ [⟨nextExpenseId dbAB, 100, "Broken", 1, "Exact"⟩] ∧
    (create_expense dbAB 100 "Broken" 1 "Exact" [(1, 50)]).2.expense_splits
      = dbAB.expense_splits
        ++ mkSplitRows (nextSplitId dbAB) (nextExpenseId dbAB) [(1, 50)] :=
  C1_create_expense_persists_violations dbAB 100 "Broken" 1 "Exact"
    [(1, 50)] (by norm_num [sumAlloc])

/-- C3 (counterexample): the Equal branch gives every participant the raw
quotient amount/n.  For amount 100 over three users every share is 100/3,
which is not the floor-to-cents share 33.33 the claim prescribes for the
non-final participants; there is no remainder absorption. -/
theorem C3_equal_split_shares_unrounded :
    equalSplits [1, 2, 3] 100
      = .ok [(1, 100 / 3), (2, 100 / 3), (3, 100 / 3)] ∧
    (100 / 3 : ℚ) ≠ specEqualShare 100 3 := by
  constructor
  · norm_num [equalSplits, dictInsert]
  · norm_num [specEqualShare]

/-- C3 (amended): for a nonempty duplicate-free participant list the Equal
branch returns the allocation giving every participant exactly amount/n,
and that allocation sums exactly to the amount: conservation holds, but by
plain exact division rather than the floor-plus-remainder mechanism the
claim describes. -/
theorem C3_equal_split_sums_exactly (users : List Nat) (amount : ℚ)
    (hne : users ≠ []) (hnd : users.Nodup) :
    equalSplits users amount
      = .ok (users.map (fun u => (u, amount / users.length))) ∧
    sumAlloc (users.map (fun u => (u, amount / users.length))) = amount :=
  ⟨equalSplits_eq_map users amount hne hnd,
   sum_map_const_div users amount hne⟩

/-- C3 (witness): the amended theorem at three users and amount 100. -/
theorem C3_equal_split_sums_exactly_witness :
    equalSplits [1, 2, 3] 100
      = .ok (([1, 2, 3] : List Nat).map
          (fun u => (u, (100 : ℚ) / (([1, 2, 3] : List Nat)).length))) ∧
    sumAlloc (([1, 2, 3] : List Nat).map
        (fun u => (u, (100 : ℚ) / (([1, 2, 3] : List Nat)).length))) = 100 :=
  C3_equal_split_sums_exactly [1, 2, 3] 100 (by simp) (by decide)

/-- C4 (counterexample): the Exact branch silently infers the final
participant amount.  With users 1 and 2, amount 100 and only 30 entered,
it returns the allocation 30/70 instead of failing with
AllocationMismatch, although the supplied amounts sum to 30, off from the
amount by far more than the tolerance. -/
theorem C4_exact_split_infers_last :
    exactSplits [1, 2] 100 [30] = [(1, 30), (2, 70)] ∧
    ¬(|sumAlloc [(1, 30)] - 100| ≤ 1 / 100) := by
  constructor
  · norm_num [exactSplits, exactLoop, dictInsert]
  · norm_num [sumAlloc]

/-- C4 (amended): the Exact branch collects entered amounts only for the
non-final participants, clamped into [0, remaining], and assigns the whole
remainder to the final participant, so the resulting allocation always
sums exactly to the expense amount and no AllocationMismatch failure
exists. -/
theorem C4_exact_split_sum_is_amount (users : List Nat) (amount : ℚ)
    (entered : List ℚ) (hne : users ≠ []) (hnd : users.Nodup) :
    sumAlloc (exactSplits users amount entered) = amount := by
  unfold exactSplits
  rw [exactLoop_sumAlloc users amount entered [] hne hnd (by simp)]
  simp [sumAlloc]

/-- C4 (witness): the amended theorem at the 99.99-entered example of the
claim: the call succeeds and the allocation sums to 100. -/
theorem C4_exact_split_sum_is_amount_witness :
    sumAlloc (exactSplits [1, 2] 100 [9999 / 100]) = 100 :=
  C4_exact_split_sum_is_amount [1, 2] 100 [9999 / 100] (by simp) (by decide)

/-- C5 (counterexample): entered percentages 60 and 40.1 sum to 100.1, yet
nothing fails validation: the widget clamp reduces the second to the
remaining 40, the final participant is auto-filled with the remaining 0,
and an allocation is returned. -/
theorem C5_percentage_overrun_not_rejected :
    percentageSplits [1, 2, 3] 50 [60, 401 / 10]
      = [(1, 30), (2, 20), (3, 0)] ∧
    (60 : ℚ) + 401 / 10 = 1001 / 10 := by
  constructor
  · norm_num [percentageSplits, percentLoop, dictInsert]
  · norm_num

/-- C5 (amended): the Percentage branch validates nothing: entered
percentages are clamped into [0, remaining] and the final participant
absorbs the remaining percentage, so the used percentages always total 100
and the allocation sums exactly to the amount; each share is
amount * pct/100 computed exactly, unrounded. -/
theorem C5_percentage_split_sum_is_amount (users : List Nat) (amount : ℚ)
    (entered : List ℚ) (hne : users ≠ []) (hnd : users.Nodup) :
    sumAlloc (percentageSplits users amount entered) = amount := by
  unfold percentageSplits
  rw [percentLoop_sumAlloc amount users 100 entered [] hne hnd (by simp)]
  norm_num [sumAlloc]

/-- C5 (witness): percentages {60, 40} on amount 50.00 yield exactly
{30.00, 20.00}, summing to 50 by the amended theorem. -/
theorem C5_percentage_split_sum_is_amount_witness :
    percentageSplits [1, 2] 50 [60] = [(1, 30), (2, 20)] ∧
    sumAlloc (percentageSplits [1, 2] 50 [60]) = 50 :=
  ⟨by norm_num [percentageSplits, percentLoop, dictInsert],
   C5_percentage_split_sum_is_amount [1, 2] 50 [60] (by simp) (by decide)⟩

/-- C6 (counterexample): an Equal split over an empty participant list
fails with the unhandled ZeroDivisionError of amount / len(users), not
with a ValidationError; the code constructs no ValidationError anywhere. -/
theorem C6_empty_equal_split_divides_by_zero :
    isValidationError (equalSplits [] 100) = false ∧
    equalSplits [] 100 = .error .zeroDivisionError :=
  ⟨rfl, rfl⟩

/-- C6 (amended): the split computation performs no general validation.
Its only failure is the ZeroDivisionError of the Equal branch on an empty
participant list; on a nonempty duplicate-free participant list the Equal
branch succeeds and the allocation keys are exactly the input
participants. -/
theorem C6_equal_split_validation_behavior (users : List Nat) (amount : ℚ) :
    (users = [] → equalSplits users amount = .error .zeroDivisionError) ∧
    (users ≠ [] → users.Nodup →
      ∃ a, equalSplits users amount = .ok a ∧ a.map Prod.fst = users) := by
  constructor
  · intro h
    subst h
    rfl
  · intro hne hnd
    refine ⟨users.map (fun u => (u, amount / users.length)),
      equalSplits_eq_map users amount hne hnd, ?_⟩
    rw [List.map_map]
    have hid : (Prod.fst ∘ fun u : Nat => (u, amount / (users.length : ℚ)))
        = id := rfl
    rw [hid, List.map_id]

/-- C6 (witness): the amended theorem at the empty list and at a concrete
two-user list. -/
theorem C6_equal_split_validation_behavior_witness :
    equalSplits [] 5 = .error .zeroDivisionError ∧
    ∃ a, equalSplits [3, 4] 7 = .ok a ∧ a.map Prod.fst = [3, 4] :=
  ⟨(C6_equal_split_validation_behavior [] 5).1 rfl,
   (C6_equal_split_validation_behavior [3, 4] 7).2 (by simp) (by decide)⟩

/-- C7 (counterexample): user B is beneficiary of no split, yet the sheet
row for B has Paid = 0 but Owed = NULL and Balance = NULL (NaN in the
DataFrame), not 0: SQL SUM over the empty left-join group is NULL. -/
theorem C7_uninvolved_user_owed_is_null :
    get_balance_sheet soloLedger
      = [⟨"A", 90, some 90, some 0⟩, ⟨"B", 0, none, none⟩] ∧
    (none : Option ℚ) ≠ some 0 := by
  constructor
  · norm_num [get_balance_sheet, soloLedger, dbAB, create_expense,
      mkSplitRows, nextExpenseId, nextSplitId, paidOf, owedOf, joinRowsOf,
      splitsOf]
  · simp

/-- C7 (amended): the sheet contains exactly one row per known user, in
users-table order; a user who is payer of no expense and beneficiary of no
split still appears, with Paid = 0 but with Owed = NULL and Balance = NULL
rather than 0. -/
theorem C7_one_row_per_user (db : DB) :
    (get_balance_sheet db).map BalanceRow.name = db.users.map XUser.name ∧
    (∀ u ∈ db.users, (∀ s ∈ db.expense_splits, s.user_id ≠ u.id) →
      (⟨u.name, 0, none, none⟩ : BalanceRow) ∈ get_balance_sheet db) := by
  constructor
  · unfold get_balance_sheet
    rw [List.map_map]
    rfl
  · intro u hu hnos
    have hsp : splitsOf db u.id = [] := by
      rw [splitsOf, List.filter_eq_nil_iff]
      intro s hs
      simp only [decide_eq_true_eq]
      exact hnos s hs
    have hjoin : joinRowsOf db u.id = [] := by
      unfold joinRowsOf
      rw [hsp]
      rfl
    have hpaid : paidOf db u.id = 0 := by
      unfold paidOf
      rw [hjoin]
      rfl
    have howed : owedOf db u.id = none := by
      unfold owedOf
      rw [hjoin]
    unfold get_balance_sheet
    apply List.mem_map.mpr
    refine ⟨u, hu, ?_⟩
    simp [hpaid, howed]

/-- C7 (witness): the amended theorem at the one-expense ledger whose user
B has no splits. -/
theorem C7_one_row_per_user_witness :
    (get_balance_sheet soloLedger).map BalanceRow.name
      = soloLedger.users.map XUser.name ∧
    (⟨"B", 0, none, none⟩ : BalanceRow) ∈ get_balance_sheet soloLedger :=
  ⟨(C7_one_row_per_user soloLedger).1,
   (C7_one_row_per_user soloLedger).2 ⟨2, "B"⟩ (by decide)
     (by decide)⟩

/-- C8: `get_user_expenses db uid` returns exactly the expenses joined to
uid by some split row, each at most once (DISTINCT), and it is a pure
function of the ledger state, so repeating the query on an unchanged
ledger returns the same result. -/
theorem C8_get_user_expenses_exact (db : DB) (uid : Nat) :
    (∀ e, e ∈ get_user_expenses db uid ↔
      (e ∈ db.expenses ∧ ∃ s ∈ db.expense_splits,
        s.expense_id = e.id ∧ s.user_id = uid)) ∧
    (get_user_expenses db uid).Nodup := by
  constructor
  · intro e
    unfold get_user_expenses
    rw [List.mem_dedup, List.mem_filter, List.any_eq_true]
    simp
  · exact List.nodup_dedup _

/-- C8 (witness): in the two-expense ledger where user 2 appears in the
split set of expense 1 only, the query returns exactly that expense; the
membership is obtained through the characterization theorem. -/
theorem C8_get_user_expenses_exact_witness :
    get_user_expenses skewLedger 2 = [⟨1, 100, "Hotel", 1, "Exact"⟩] ∧
    (⟨1, 100, "Hotel", 1, "Exact"⟩ : Expense) ∈ get_user_expenses skewLedger 2 :=
  ⟨by norm_num [get_user_expenses, skewLedger, dbAB, create_expense,
      mkSplitRows, nextExpenseId, nextSplitId, List.dedup],
   ((C8_get_user_expenses_exact skewLedger 2).1 ⟨1, 100, "Hotel", 1, "Exact"⟩).mpr
     (by constructor
         · norm_num [skewLedger, dbAB, create_expense, mkSplitRows,
             nextExpenseId, nextSplitId]
         · refine ⟨⟨1, 1, 2, 100⟩, ?_, rfl, rfl⟩
           norm_num [skewLedger, dbAB, create_expense, mkSplitRows,
             nextExpenseId, nextSplitId])⟩

/-- C9: the ledger is append-only.  `create_expense` leaves the users
relation unchanged and extends the two ledger relations by exactly the new
expense row and its split rows, leaving every previously stored row in
place; the read operations are pure functions of the state and write
nothing. -/
theorem C9_ledger_append_only (db : DB) (amount : ℚ) (description : String)
    (payer_id : Nat) (split_method : String) (splits : List (Nat × ℚ)) :
    (create_expense db amount description payer_id split_method
        splits).2.users = db.users ∧
    (create_expense db amount description payer_id split_method
        splits).2.expenses
      = db.expenses
        ++ [(create_expense db amount description payer_id split_method
              splits).1] ∧
    (create_expense db amount description payer_id split_method
        splits).2.expense_splits
      = db.expense_splits
        ++ mkSplitRows (nextSplitId db) (nextExpenseId db) splits ∧
    get_all_expenses (create_expense db amount description payer_id
        split_method splits).2
      = get_all_expenses db
        ++ [(create_expense db amount description payer_id split_method
              splits).1] :=
  ⟨rfl, rfl, rfl, rfl⟩

/-- C10: the Paid aggregate counts an expense only through the split rows
of the user: when the payer of an expense does not appear in that expense
split set, removing the expense from the ledger does not change the payer
Paid total, i.e. the amount of the expense is excluded from it. -/
theorem C10_paid_requires_beneficiary_membership (db : DB) (e : Expense)
    (p : Nat) (_he : e ∈ db.expenses) (_hp : e.payer_id = p)
    (hno : ∀ s ∈ db.expense_splits, s.expense_id = e.id → s.user_id ≠ p) :
    paidOf db p = paidOf (eraseExpense db e.id) p := by
  unfold paidOf
  rw [joinRowsOf_erase db e.id p hno]

/-- C10 (witness): in the ledger whose expense 1 (amount 100, payer 1) has
only user 2 in its split set, the Paid total of user 1 ignores the
expense entirely: it is unchanged by erasing the expense, and is 0. -/
theorem C10_paid_requires_beneficiary_membership_witness :
    paidOf skewLedger 1 = paidOf (eraseExpense skewLedger 1) 1 ∧
    paidOf skewLedger 1 = 0 :=
  ⟨C10_paid_requires_beneficiary_membership skewLedger
     ⟨1, 100, "Hotel", 1, "Exact"⟩ 1
     (by norm_num [skewLedger, dbAB, create_expense, mkSplitRows,
       nextExpenseId, nextSplitId])
     rfl
     (by norm_num [skewLedger, dbAB, create_expense, mkSplitRows,
       nextExpenseId, nextSplitId]),
   by norm_num [paidOf, joinRowsOf, splitsOf, skewLedger, dbAB,
     create_expense, mkSplitRows, nextExpenseId, nextSplitId]⟩

lemma exampleLedger_eq : exampleLedger =
    ⟨[⟨1, "A"⟩, ⟨2, "B"⟩, ⟨3, "C"⟩],
     [⟨1, 90, "Dinner", 1, "Equal"⟩, ⟨2, 60, "Taxi", 2, "Equal"⟩],
     [⟨1, 1, 1, 30⟩, ⟨2, 1, 2, 30⟩, ⟨3, 1, 3, 30⟩,
      ⟨4, 2, 1, 20⟩, ⟨5, 2, 2, 20⟩, ⟨6, 2, 3, 20⟩]⟩ := rfl

/-- C2 (counterexample): the zero-sum invariant fails on a reachable
ledger state.  In `skewLedger`, recorded through two `create_expense`
calls whose payers are absent from their own split sets, the Balance
column sums to -110, not 0. -/
theorem C2_balance_sum_nonzero_counterexample :
    balanceTotal (get_balance_sheet skewLedger) = some (-110) ∧
    some (-110 : ℚ) ≠ some (0 : ℚ) := by
  constructor
  · norm_num [balanceTotal, get_balance_sheet, skewLedger, dbAB,
      create_expense, mkSplitRows, nextExpenseId, nextSplitId, paidOf,
      owedOf, joinRowsOf, splitsOf]
  · simp

/-- C2 (amended): the Balance column sums to 0 for every ledger state in
which expense ids are unique, every split row references an existing
expense, the splits of each expense sum to its amount, the payer of each
expense appears exactly once in its own split set, every split names a
known user, user ids are unique, and every user has at least one split
row.  Without these conditions, which no code path enforces, the sum can
be nonzero or NaN. -/
theorem C2_balance_sheet_conserves (db : DB)
    (h1 : (db.expenses.map Expense.id).Nodup)
    (h2 : ∀ s ∈ db.expense_splits, ∃ e ∈ db.expenses, e.id = s.expense_id)
    (h3 : ∀ e ∈ db.expenses,
      ((db.expense_splits.filter (fun s => s.expense_id = e.id)).map
        ExpenseSplit.amount).sum = e.amount)
    (h4 : ∀ e ∈ db.expenses,
      ((db.expense_splits.filter (fun s => s.expense_id = e.id)).filter
        (fun s => s.user_id = e.payer_id)).length = 1)
    (h5 : ∀ s ∈ db.expense_splits, s.user_id ∈ db.users.map XUser.id)
    (h6 : (db.users.map XUser.id).Nodup)
    (h7 : ∀ u ∈ db.users, ∃ s ∈ db.expense_splits, s.user_id = u.id) :
    balanceTotal (get_balance_sheet db) = some 0 := by
  have hsne : ∀ u ∈ db.users, splitsOf db u.id ≠ [] := by
    intro u hu hnil
    obtain ⟨s, hs, hsu⟩ := h7 u hu
    have hmem : s ∈ splitsOf db u.id :=
      List.mem_filter.mpr ⟨hs, by simp [hsu]⟩
    rw [hnil] at hmem
    cases hmem
  have hb : ∀ r ∈ get_balance_sheet db,
      r.balance = some (r.paid - r.owed.getD 0) := by
    intro r hr
    obtain ⟨u, hu, rfl⟩ := List.mem_map.mp hr
    simp only
    rw [owedOf_wf db u.id h1 h2 (hsne u hu)]
    simp
  rw [balanceTotal_eq_sum (fun r => r.paid - r.owed.getD 0)
    (get_balance_sheet db) hb]
  have hrows : (get_balance_sheet db).map (fun r => r.paid - r.owed.getD 0)
      = db.users.map (fun u => paidOf db u.id - owedVal db u.id) := by
    unfold get_balance_sheet
    rw [List.map_map]
    apply List.map_congr_left
    intro u hu
    simp only [Function.comp]
    rw [owedOf_wf db u.id h1 h2 (hsne u hu)]
    simp
  rw [hrows, sum_map_sub']
  have hcovE : ∀ s ∈ db.expense_splits,
      s.expense_id ∈ db.expenses.map Expense.id := by
    intro s hs
    obtain ⟨e, he, heid⟩ := h2 s hs
    exact heid ▸ List.mem_map_of_mem Expense.id he
  have hB : (db.users.map (fun u => owedVal db u.id)).sum
      = (db.expenses.map Expense.amount).sum := by
    have e1 : db.users.map (fun u => owedVal db u.id)
        = (db.users.map XUser.id).map (fun k =>
            ((db.expense_splits.filter (fun s => s.user_id = k)).map
              ExpenseSplit.amount).sum) := by
      rw [List.map_map]
      rfl
    rw [e1, sum_partition (fun s => s.user_id) ExpenseSplit.amount
      db.expense_splits (db.users.map XUser.id) h6 h5,
      ← sum_partition (fun s => s.expense_id) ExpenseSplit.amount
      db.expense_splits (db.expenses.map Expense.id) h1 hcovE,
      List.map_map]
    exact congrArg List.sum (List.map_congr_left h3)
  have hA : (db.users.map (fun u => paidOf db u.id)).sum
      = (db.expenses.map Expense.amount).sum := by
    have e1 : db.users.map (fun u => paidOf db u.id)
        = (db.users.map XUser.id).map (fun k =>
            ((db.expense_splits.filter (fun s => s.user_id = k)).map
              (paidContribSelf db)).sum) := by
      rw [List.map_map]
      apply List.map_congr_left
      intro u hu
      simp only [Function.comp]
      rw [paidOf_wf db u.id h1 h2]
      unfold splitsOf
      apply congrArg List.sum
      apply List.map_congr_left
      intro s hs
      have hsu : s.user_id = u.id := by
        have h := (List.mem_filter.mp hs).2
        simpa using h
      unfold paidContribSelf
      rw [hsu]
    rw [e1, sum_partition (fun s => s.user_id) (paidContribSelf db)
      db.expense_splits (db.users.map XUser.id) h6 h5,
      ← sum_partition (fun s => s.expense_id) (paidContribSelf db)
      db.expense_splits (db.expenses.map Expense.id) h1 hcovE,
      List.map_map]
    apply congrArg List.sum
    apply List.map_congr_left
    intro e he
    simp only [Function.comp]
    have hin : (db.expense_splits.filter
        (fun s => s.expense_id = e.id)).map (paidContribSelf db)
        = (db.expense_splits.filter (fun s => s.expense_id = e.id)).map
          (fun s => if e.payer_id = s.user_id then e.amount else 0) := by
      apply List.map_congr_left
      intro s hs
      have hsid : s.expense_id = e.id := by
        have h := (List.mem_filter.mp hs).2
        simpa using h
      unfold paidContribSelf paidContrib
      rw [hsid, filter_id_single db.expenses h1 e he]
      rfl
    rw [hin, sum_map_if_count e.amount
      (fun s : ExpenseSplit => e.payer_id = s.user_id)]
    have hflip : (db.expense_splits.filter
        (fun s => s.expense_id = e.id)).filter
          (fun s => decide (e.payer_id = s.user_id))
        = (db.expense_splits.filter (fun s => s.expense_id = e.id)).filter
          (fun s => s.user_id = e.payer_id) := by
      apply List.filter_congr
      intro x _
      exact decide_eq_decide.mpr eq_comm
    rw [hflip, h4 e he, Nat.cast_one, one_mul]
  rw [hA, hB, sub_self]

/-- C2 (witness): the spec scenario, recorded through two
`create_expense` calls, shows exactly the claimed sheet, and the
conservation theorem applies to it: the balances sum to 0. -/
theorem C2_balance_sheet_conserves_witness :
    get_balance_sheet exampleLedger
      = [⟨"A", 90, some 50, some 40⟩, ⟨"B", 60, some 50, some 10⟩,
         ⟨"C", 0, some 50, some (-50)⟩] ∧
    balanceTotal (get_balance_sheet exampleLedger) = some 0 :=
  ⟨by rw [exampleLedger_eq]
      norm_num [get_balance_sheet, paidOf, owedOf, joinRowsOf, splitsOf],
   C2_balance_sheet_conserves exampleLedger
     (by rw [exampleLedger_eq]; decide)
     (by rw [exampleLedger_eq]; decide)
     (by rw [exampleLedger_eq]; norm_num [List.filter_cons])
     (by rw [exampleLedger_eq]; decide)
     (by rw [exampleLedger_eq]; decide)
     (by rw [exampleLedger_eq]; decide)
     (by rw [exampleLedger_eq]; decide)⟩
